import Mathlib

/-!
# Verification of ansari-whatsapp against its specification

Shallow embedding of the parts of the `ansari-whatsapp` repository that the
specification's testable claims talk about, together with proofs (or refutations)
of those claims.

Python strings are embedded as `List Char`, byte strings as `List Nat`
(each entry a byte value), and fallible code as `Except`/`Option`.

Sections:
* message splitter (`utils/whatsapp_message_splitter.py`)
* signature verification (`utils/whatsapp_webhook_utils.py`), with a concrete
  SHA-256 / HMAC-SHA256 model of the Python `hashlib`/`hmac` library calls
* webhook payload parsing (`utils/whatsapp_webhook_utils.py`)
* time utilities (`utils/time_utils.py`)
* conversation-manager control flow (`services/whatsapp_conversation_manager.py`)
* GET verification endpoint (`app/main.py`)
-/

namespace AnsariWhatsapp

/-! ## Message splitter (`whatsapp_message_splitter.py`) -/

/-- `WHATSAPP_MAX_MESSAGE_LENGTH = 4000`. -/
def WHATSAPP_MAX_MESSAGE_LENGTH : Nat := 4000

/-- Python slice `text[a:b]` (for `0 ≤ a`, `0 ≤ b`). -/
def pySlice (t : List Char) (a b : Nat) : List Char := (t.take b).drop a

/-- One step of Python `re` matching for the pattern `\*_[^*_]+_\*` at the head
of the list: returns the length of the match, if any.  The greedy `[^*_]+` takes
the maximal run of characters other than `*`/`_`; no shorter run can succeed
because the following `_` is excluded from the run's character class. -/
def matchHeaderAt : List Char → Option Nat
  | c1 :: c2 :: rest =>
    if c1 = '*' ∧ c2 = '_' then
      let run := rest.takeWhile (fun c => !(c == '*' || c == '_'))
      if run.length = 0 then none
      else
        match rest.drop run.length with
        | d1 :: d2 :: _ => if d1 = '_' ∧ d2 = '*' then some (run.length + 4) else none
        | _ => none
    else none
  | _ => none

/-- One step of Python `re` matching for the pattern `\*[^*]+\*` at the head of
the list: returns the length of the match, if any. -/
def matchBoldAt : List Char → Option Nat
  | c1 :: rest =>
    if c1 = '*' then
      let run := rest.takeWhile (fun c => !(c == '*'))
      if run.length = 0 then none
      else
        match rest.drop run.length with
        | d1 :: _ => if d1 = '*' then some (run.length + 2) else none
        | _ => none
    else none
  | _ => none

/-- Fuelled worker for Python `list(pattern.finditer(text))`.  The fuel is an
upper bound on the remaining text length; each step consumes at least one
character, so fuel `text.length` is always enough (see `finditerFrom`). -/
def finditerF (m : List Char → Option Nat) : Nat → List Char → Nat → List (Nat × Nat)
  | _, [], _ => []
  | 0, _ :: _, _ => []
  | fuel + 1, c :: rest, i =>
    match m (c :: rest) with
    | some len =>
      if 0 < len then
        (i, i + len) :: finditerF m fuel ((c :: rest).drop len) (i + len)
      else
        finditerF m fuel rest (i + 1)
    | none => finditerF m fuel rest (i + 1)

/-- Python `list(pattern.finditer(text))`, as the list of `(start, end)` spans:
scan left to right, at each position try the matcher; on a match emit its span
and resume at the match's end. -/
def finditerFrom (m : List Char → Option Nat) (s : List Char) (i : Nat) : List (Nat × Nat) :=
  finditerF m s.length s i

/-- Fuelled loop `for i in range(0, len(text), max_length)` of
`split_by_fixed_chunks`, for a non-empty remainder.  Each step consumes
`max_length ≥ 1` characters, so fuel `text.length` is always enough. -/
def fixedLoopF (maxLength : Nat) : Nat → List Char → List (List Char)
  | _, [] => []
  | 0, _ :: _ => []
  | fuel + 1, c :: rest =>
    (c :: rest).take maxLength :: fixedLoopF maxLength fuel (rest.drop (maxLength - 1))

/-- `split_by_fixed_chunks(text, max_length)`. -/
def split_by_fixed_chunks (text : List Char) (maxLength : Nat) : List (List Char) :=
  if text.length ≤ maxLength then [text] else fixedLoopF maxLength text.length text

/-- Fuelled worker for `re.split(r"\n\n+", text)`: `acc` is the current piece,
reversed.  Each step consumes at least one character. -/
def paraSplitAuxF : Nat → List Char → List Char → List (List Char)
  | _, acc, [] => [acc.reverse]
  | 0, acc, _ :: _ => [acc.reverse]
  | fuel + 1, acc, c :: rest =>
    match rest with
    | c2 :: rest2 =>
      if c = '\n' ∧ c2 = '\n' then
        acc.reverse :: paraSplitAuxF fuel [] (rest2.dropWhile (fun x => x == '\n'))
      else paraSplitAuxF fuel (c :: acc) rest
    | [] => paraSplitAuxF fuel (c :: acc) []

/-- `re.split(r"\n\n+", text)`: the pattern's matches are exactly the maximal
runs of two or more newlines; the pieces between them are returned. -/
def paraSplit (text : List Char) : List (List Char) := paraSplitAuxF text.length [] text

/-- The accumulation loop of `split_by_paragraphs` over the paragraph list,
with `current` the running chunk.  The first branch is the flush
`if current and len(current) + len(para) + 2 > max_length`; after a flush
`current` is empty, so the long-paragraph branch's own flush is a no-op and the
short-paragraph branch restarts `current` at `para`. -/
def paraLoop (maxLength : Nat) : List (List Char) → List Char → List (List Char)
  | [], current => if current.isEmpty then [] else [current]
  | para :: rest, current =>
    if !current.isEmpty && decide (current.length + para.length + 2 > maxLength) then
      if para.length > maxLength then
        current :: (split_by_fixed_chunks para maxLength ++ paraLoop maxLength rest [])
      else
        current :: paraLoop maxLength rest para
    else
      if para.length > maxLength then
        (if current.isEmpty then [] else [current]) ++ split_by_fixed_chunks para maxLength
          ++ paraLoop maxLength rest []
      else
        paraLoop maxLength rest (if current.isEmpty then para else current ++ '\n' :: '\n' :: para)

/-- `split_by_paragraphs(text, max_length)`. -/
def split_by_paragraphs (text : List Char) (maxLength : Nat) : List (List Char) :=
  if text.length ≤ maxLength then [text]
  else if (paraSplit text).length > 1 then paraLoop maxLength (paraSplit text) []
  else split_by_fixed_chunks text maxLength

/-- The `i == 0 and match.start() > 0` clause shared by `split_by_headers` and
`split_by_bold_text`: the text before the first match becomes its own chunk(s),
via `split_by_paragraphs` when it is too long. -/
def leadChunks (text : List Char) (maxLength : Nat) (s0 : Nat) : List (List Char) :=
  if 0 < s0 then
    if (text.take s0).length ≤ maxLength then [text.take s0]
    else split_by_paragraphs (text.take s0) maxLength
  else []

/-- The start of the first span, or `n` when there is none (used as the chunk
boundary `end_pos = bold_matches[i + 1].start() if ... else len(text)`). -/
def firstStart (n : Nat) : List (Nat × Nat) → Nat
  | [] => n
  | (s, _) :: _ => s

def boldChunksLoop (text : List Char) (maxLength : Nat) : List (Nat × Nat) → List (List Char)
  | [] => []
  | (s, _) :: rest =>
    (if (pySlice text s (firstStart text.length rest)).length ≤ maxLength
      then [pySlice text s (firstStart text.length rest)]
      else split_by_paragraphs (pySlice text s (firstStart text.length rest)) maxLength)
      ++ boldChunksLoop text maxLength rest

/-- `split_by_bold_text(text, max_length)`. -/
def split_by_bold_text (text : List Char) (maxLength : Nat) : List (List Char) :=
  if text.length ≤ maxLength then [text]
  else if (finditerFrom matchBoldAt text 0).length ≤ 1 then split_by_paragraphs text maxLength
  else
    leadChunks text maxLength (firstStart text.length (finditerFrom matchBoldAt text 0))
      ++ boldChunksLoop text maxLength (finditerFrom matchBoldAt text 0)

/-- The per-match loop of `split_by_headers`: oversized chunks fall back to
`split_by_bold_text`. -/
def headerChunksLoop (text : List Char) (maxLength : Nat) : List (Nat × Nat) → List (List Char)
  | [] => []
  | (s, _) :: rest =>
    (if (pySlice text s (firstStart text.length rest)).length ≤ maxLength
      then [pySlice text s (firstStart text.length rest)]
      else split_by_bold_text (pySlice text s (firstStart text.length rest)) maxLength)
      ++ headerChunksLoop text maxLength rest

/-- `split_by_headers(text, max_length)`. -/
def split_by_headers (text : List Char) (maxLength : Nat) : List (List Char) :=
  if (finditerFrom matchHeaderAt text 0).length ≤ 1 then [text]
  else
    leadChunks text maxLength (firstStart text.length (finditerFrom matchHeaderAt text 0))
      ++ headerChunksLoop text maxLength (finditerFrom matchHeaderAt text 0)

/-- `split_message(msg_body)`. -/
def split_message (msgBody : List Char) : List (List Char) :=
  if msgBody.length ≤ WHATSAPP_MAX_MESSAGE_LENGTH then [msgBody]
  else if (split_by_headers msgBody WHATSAPP_MAX_MESSAGE_LENGTH).length > 1 then
    split_by_headers msgBody WHATSAPP_MAX_MESSAGE_LENGTH
  else if (split_by_bold_text msgBody WHATSAPP_MAX_MESSAGE_LENGTH).length > 1 then
    split_by_bold_text msgBody WHATSAPP_MAX_MESSAGE_LENGTH
  else split_by_paragraphs msgBody WHATSAPP_MAX_MESSAGE_LENGTH

/-! ### Splitter lemmas -/

theorem length_pySlice (t : List Char) (a b : Nat) :
    (pySlice t a b).length = min b t.length - a := by
  simp [pySlice]

theorem matchHeaderAt_some {s : List Char} {len : Nat}
    (h : matchHeaderAt s = some len) : 0 < len ∧ len ≤ s.length := by
  match s with
  | [] => simp [matchHeaderAt] at h
  | [c] => simp [matchHeaderAt] at h
  | c1 :: c2 :: rest =>
    simp only [matchHeaderAt] at h
    split at h
    · set run := rest.takeWhile (fun c => !(c == '*' || c == '_')) with hrun
      split at h
      · exact absurd h (by simp)
      · have hle : run.length ≤ rest.length := by
          rw [hrun]; exact (List.takeWhile_sublist _).length_le
        split at h
        next d1 d2 tail hdrop =>
          split at h
          · have hlen : (rest.drop run.length).length = rest.length - run.length := by simp
            rw [hdrop] at hlen
            simp only [List.length_cons] at hlen
            simp only [Option.some.injEq] at h
            simp only [List.length_cons]
            omega
          · exact absurd h (by simp)
        next hdrop => exact absurd h (by simp)
    · exact absurd h (by simp)

theorem matchBoldAt_some {s : List Char} {len : Nat}
    (h : matchBoldAt s = some len) : 0 < len ∧ len ≤ s.length := by
  match s with
  | [] => simp [matchBoldAt] at h
  | c1 :: rest =>
    simp only [matchBoldAt] at h
    split at h
    · set run := rest.takeWhile (fun c => !(c == '*')) with hrun
      split at h
      · exact absurd h (by simp)
      · have hle : run.length ≤ rest.length := by
          rw [hrun]; exact (List.takeWhile_sublist _).length_le
        split at h
        next d1 tail hdrop =>
          split at h
          · have hlen : (rest.drop run.length).length = rest.length - run.length := by simp
            rw [hdrop] at hlen
            simp only [List.length_cons] at hlen
            simp only [Option.some.injEq] at h
            simp only [List.length_cons]
            omega
          · exact absurd h (by simp)
        next hdrop => exact absurd h (by simp)
    · exact absurd h (by simp)

/-- A matcher that, on success, consumes at least one and at most all of the
characters in front of it. -/
def MatcherOk (m : List Char → Option Nat) : Prop :=
  ∀ s len, m s = some len → 0 < len ∧ len ≤ s.length

/-- The spans `(a, b)` of a match list are ordered (`lo ≤ a < b`), stay within
`n`, and each span ends before the next begins. -/
def ChainedIn (n : Nat) : Nat → List (Nat × Nat) → Prop
  | _, [] => True
  | lo, (a, b) :: rest => lo ≤ a ∧ a < b ∧ b ≤ n ∧ ChainedIn n b rest

theorem chainedIn_mono {n lo lo' : Nat} {l : List (Nat × Nat)}
    (hle : lo ≤ lo') (h : ChainedIn n lo' l) : ChainedIn n lo l := by
  cases l with
  | nil => trivial
  | cons p rest =>
    obtain ⟨a, b⟩ := p
    obtain ⟨h1, h2⟩ := h
    exact ⟨le_trans hle h1, h2⟩

theorem finditerF_chained {m : List Char → Option Nat} (hm : MatcherOk m) :
    ∀ (fuel : Nat) (s : List Char) (i : Nat), s.length ≤ fuel →
      ChainedIn (i + s.length) i (finditerF m fuel s i) := by
  intro fuel
  induction fuel with
  | zero =>
    intro s i hs
    cases s with
    | nil => simp [finditerF, ChainedIn]
    | cons c rest => simp at hs
  | succ fuel ih =>
    intro s i hs
    cases s with
    | nil => simp [finditerF, ChainedIn]
    | cons c rest =>
      simp only [finditerF]
      match hmc : m (c :: rest) with
      | some len =>
        obtain ⟨hpos, hlen⟩ := hm _ _ hmc
        simp only [hpos, if_pos]
        refine ⟨le_refl _, by omega, by omega, ?_⟩
        have hdl : ((c :: rest).drop len).length = (c :: rest).length - len := by simp
        have h1 : ((c :: rest).drop len).length ≤ fuel := by
          simp at hs ⊢; omega
        have := ih ((c :: rest).drop len) (i + len) h1
        rw [hdl] at this
        have heq : i + len + ((c :: rest).length - len) = i + (c :: rest).length := by omega
        rw [heq] at this
        exact this
      | none =>
        have h1 : rest.length ≤ fuel := by simp at hs; omega
        have := ih rest (i + 1) h1
        have heq : i + 1 + rest.length = i + (c :: rest).length := by simp; omega
        rw [heq] at this
        exact chainedIn_mono (by omega) this

theorem finditerFrom_chained {m : List Char → Option Nat} (hm : MatcherOk m)
    (s : List Char) : ChainedIn s.length 0 (finditerFrom m s 0) := by
  have := finditerF_chained hm s.length s 0 (le_refl _)
  simpa using this

theorem fixedLoopF_mem {maxLength : Nat} (hmax : 1 ≤ maxLength) :
    ∀ (fuel : Nat) (t : List Char), t.length ≤ fuel →
      ∀ c ∈ fixedLoopF maxLength fuel t, c.length ≤ maxLength ∧ c ≠ [] := by
  intro fuel
  induction fuel with
  | zero =>
    intro t ht c hc
    cases t with
    | nil => simp [fixedLoopF] at hc
    | cons x rest => simp at ht
  | succ fuel ih =>
    intro t ht c hc
    cases t with
    | nil => simp [fixedLoopF] at hc
    | cons x rest =>
      simp only [fixedLoopF, List.mem_cons] at hc
      rcases hc with hc | hc
      · subst hc
        constructor
        · simp [List.length_take]
        · simp [List.take_cons, Nat.succ_le_iff] at *
          intro hfalse
          omega
      · have h1 : (rest.drop (maxLength - 1)).length ≤ fuel := by
          simp at ht ⊢; omega
        exact ih _ h1 c hc

theorem fixedLoopF_flatten {maxLength : Nat} (hmax : 1 ≤ maxLength) :
    ∀ (fuel : Nat) (t : List Char), t.length ≤ fuel →
      (fixedLoopF maxLength fuel t).flatten = t := by
  intro fuel
  induction fuel with
  | zero =>
    intro t ht
    cases t with
    | nil => simp [fixedLoopF]
    | cons x rest => simp at ht
  | succ fuel ih =>
    intro t ht
    cases t with
    | nil => simp [fixedLoopF]
    | cons x rest =>
      simp only [fixedLoopF, List.flatten_cons]
      have h1 : (rest.drop (maxLength - 1)).length ≤ fuel := by
        simp at ht ⊢; omega
      rw [ih _ h1]
      have : rest.drop (maxLength - 1) = (x :: rest).drop maxLength := by
        cases maxLength with
        | zero => omega
        | succ n => simp
      rw [this]
      exact List.take_append_drop maxLength (x :: rest)

theorem split_by_fixed_chunks_mem {t : List Char} {maxLength : Nat}
    (hmax : 1 ≤ maxLength) :
    ∀ c ∈ split_by_fixed_chunks t maxLength, c.length ≤ maxLength ∧ (t ≠ [] → c ≠ []) := by
  intro c hc
  unfold split_by_fixed_chunks at hc
  split at hc
  · simp at hc; subst hc
    exact ⟨by omega, fun h => h⟩
  · have := fixedLoopF_mem hmax t.length t (le_refl _) c hc
    exact ⟨this.1, fun _ => this.2⟩

theorem split_by_fixed_chunks_flatten {t : List Char} {maxLength : Nat}
    (hmax : 1 ≤ maxLength) :
    (split_by_fixed_chunks t maxLength).flatten = t := by
  unfold split_by_fixed_chunks
  split
  · simp
  · exact fixedLoopF_flatten hmax t.length t (le_refl _)

/-- Erase the newline characters of a string.  Paragraph separators consumed by
the splitter are runs of newlines and the separators it reinserts are `"\n\n"`,
so content preservation "modulo separator bytes" is preservation of the
non-newline characters, in order. -/
def filterNl (l : List Char) : List Char := l.filter (fun c => !(c == '\n'))

theorem filterNl_append (a b : List Char) :
    filterNl (a ++ b) = filterNl a ++ filterNl b := List.filter_append ..

theorem filterNl_dropWhileNl (s : List Char) :
    filterNl (s.dropWhile (fun x => x == '\n')) = filterNl s := by
  induction s with
  | nil => rfl
  | cons c rest ih =>
    by_cases hc : c = '\n'
    · subst hc
      rw [List.dropWhile_cons_of_pos (by simp)]
      rw [ih]
      simp [filterNl, List.filter_cons]
    · rw [List.dropWhile_cons_of_neg (by simp [hc])]

theorem paraSplitAuxF_filter_flatten :
    ∀ (fuel : Nat) (acc s : List Char), s.length ≤ fuel →
      filterNl (paraSplitAuxF fuel acc s).flatten = filterNl acc.reverse ++ filterNl s := by
  intro fuel
  induction fuel with
  | zero =>
    intro acc s hs
    cases s with
    | nil => simp [paraSplitAuxF, filterNl]
    | cons c rest => simp at hs
  | succ fuel ih =>
    intro acc s hs
    cases s with
    | nil => simp [paraSplitAuxF, filterNl]
    | cons c rest =>
      cases rest with
      | nil =>
        simp only [paraSplitAuxF]
        simp [filterNl, List.filter_append, List.filter_cons]
      | cons c2 rest2 =>
        simp only [paraSplitAuxF]
        by_cases hnl : c = '\n' ∧ c2 = '\n'
        · rw [if_pos hnl]
          obtain ⟨h1, h2⟩ := hnl; subst h1; subst h2
          simp only [List.flatten_cons, filterNl_append]
          have hlen : (rest2.dropWhile (fun x => x == '\n')).length ≤ fuel := by
            have := (List.dropWhile_sublist (l := rest2) (fun x => x == '\n')).length_le
            simp at hs; omega
          rw [ih [] _ hlen]
          rw [filterNl_dropWhileNl]
          simp [filterNl, List.filter_cons]
        · rw [if_neg hnl]
          rw [ih (c :: acc) (c2 :: rest2) (by simp at hs ⊢; omega)]
          simp [filterNl_append, filterNl, List.filter_cons]
          split <;> simp

theorem paraSplit_filter_flatten (t : List Char) :
    filterNl (paraSplit t).flatten = filterNl t := by
  have := paraSplitAuxF_filter_flatten t.length [] t (le_refl _)
  simpa [filterNl] using this

theorem paraLoop_mem {maxLength : Nat} (hmax : 1 ≤ maxLength) :
    ∀ (paras : List (List Char)) (current : List Char), current.length ≤ maxLength →
      ∀ c ∈ paraLoop maxLength paras current, c.length ≤ maxLength ∧ c ≠ [] := by
  intro paras
  induction paras with
  | nil =>
    intro current hcur c hc
    by_cases he : current.isEmpty
    · simp [paraLoop, he] at hc
    · simp only [paraLoop, he, Bool.false_eq_true, if_false, List.mem_singleton] at hc
      subst hc
      exact ⟨hcur, by simpa [List.isEmpty_iff] using he⟩
  | cons para rest ih =>
    intro current hcur c hc
    by_cases hpara : para.length > maxLength
    · have hparane : para ≠ [] := by intro h; subst h; simp at hpara
      by_cases hflush : (!current.isEmpty && decide (current.length + para.length + 2 > maxLength)) = true
      · have hcurne : current ≠ [] := by
          rcases Bool.and_eq_true .. |>.mp hflush with ⟨h1, _⟩
          simpa [List.isEmpty_iff] using h1
        simp only [paraLoop, hflush, if_true, hpara, List.mem_cons, List.mem_append] at hc
        rcases hc with hc | hc | hc
        case _ => exact hc ▸ ⟨hcur, hcurne⟩
        case _ =>
          have := split_by_fixed_chunks_mem hmax c hc
          exact ⟨this.1, this.2 hparane⟩
        case _ => exact ih [] (by simp) c hc
      · simp only [paraLoop, hflush, Bool.false_eq_true, if_false, hpara, if_true,
          List.mem_append] at hc
        rcases hc with (hc | hc) | hc
        · by_cases he : current.isEmpty
          · simp [he] at hc
          · simp only [he, Bool.false_eq_true, if_false, List.mem_singleton] at hc
            subst hc
            exact ⟨hcur, by simpa [List.isEmpty_iff] using he⟩
        · have := split_by_fixed_chunks_mem hmax c hc
          exact ⟨this.1, this.2 hparane⟩
        · exact ih [] (by simp) c hc
    · by_cases hflush : (!current.isEmpty && decide (current.length + para.length + 2 > maxLength)) = true
      · have hcurne : current ≠ [] := by
          rcases Bool.and_eq_true .. |>.mp hflush with ⟨h1, _⟩
          simpa [List.isEmpty_iff] using h1
        simp only [paraLoop, hflush, if_true, hpara, if_false, List.mem_cons] at hc
        rcases hc with hc | hc
        · exact hc ▸ ⟨hcur, hcurne⟩
        · exact ih para (by omega) c hc
      · simp only [paraLoop, hflush, Bool.false_eq_true, if_false, hpara] at hc
        refine ih _ ?_ c hc
        by_cases he : current.isEmpty
        · simp only [he, if_true]
          omega
        · simp only [he, Bool.false_eq_true, if_false]
          have hcurne : current ≠ [] := by simpa [List.isEmpty_iff] using he
          have hnogt : ¬ (current.length + para.length + 2 > maxLength) := by
            intro hgt
            apply hflush
            simp [List.isEmpty_iff, hcurne, hgt]
          simp only [List.length_append, List.length_cons]
          omega

theorem paraLoop_filter_flatten {maxLength : Nat} (hmax : 1 ≤ maxLength) :
    ∀ (paras : List (List Char)) (current : List Char),
      filterNl (paraLoop maxLength paras current).flatten =
        filterNl current ++ filterNl paras.flatten := by
  intro paras
  induction paras with
  | nil =>
    intro current
    by_cases he : current.isEmpty
    · simp [paraLoop, he, List.isEmpty_iff.mp he, filterNl]
    · simp [paraLoop, he, filterNl]
  | cons para rest ih =>
    intro current
    by_cases hpara : para.length > maxLength
    · by_cases hflush : (!current.isEmpty && decide (current.length + para.length + 2 > maxLength)) = true
      · simp only [paraLoop, hflush, if_true, hpara, List.flatten_cons, List.flatten_append,
          filterNl_append, split_by_fixed_chunks_flatten hmax, ih]
        simp [filterNl, filterNl_append]
      · simp only [paraLoop, hflush, Bool.false_eq_true, if_false, hpara, if_true,
          List.flatten_append, filterNl_append, split_by_fixed_chunks_flatten hmax, ih]
        by_cases he : current.isEmpty
        · simp [he, List.isEmpty_iff.mp he, filterNl, filterNl_append]
        · simp [he, filterNl, filterNl_append]
    · by_cases hflush : (!current.isEmpty && decide (current.length + para.length + 2 > maxLength)) = true
      · simp only [paraLoop, hflush, if_true, hpara, if_false, List.flatten_cons,
          filterNl_append, ih]
        try simp [filterNl_append]
      · simp only [paraLoop, hflush, Bool.false_eq_true, if_false, hpara, ih]
        by_cases he : current.isEmpty
        · simp [he, List.isEmpty_iff.mp he, filterNl, filterNl_append]
        · have hsep : filterNl (current ++ '\n' :: '\n' :: para) =
              filterNl current ++ filterNl para := by
            rw [filterNl_append]
            simp [filterNl, List.filter_cons]
          simp [he, hsep, filterNl_append, List.append_assoc]

theorem split_by_paragraphs_mem {t : List Char} {maxLength : Nat} (hmax : 1 ≤ maxLength) :
    ∀ c ∈ split_by_paragraphs t maxLength, c.length ≤ maxLength ∧ (t ≠ [] → c ≠ []) := by
  intro c hc
  unfold split_by_paragraphs at hc
  split at hc
  · simp at hc; subst hc; exact ⟨by omega, fun h => h⟩
  · split at hc
    · have := paraLoop_mem hmax (paraSplit t) [] (by simp) c hc
      exact ⟨this.1, fun _ => this.2⟩
    · have := split_by_fixed_chunks_mem hmax c hc
      exact ⟨this.1, this.2⟩

theorem split_by_paragraphs_filter_flatten {t : List Char} {maxLength : Nat}
    (hmax : 1 ≤ maxLength) :
    filterNl (split_by_paragraphs t maxLength).flatten = filterNl t := by
  unfold split_by_paragraphs
  split
  · simp
  · split
    · rw [paraLoop_filter_flatten hmax]
      simpa [filterNl] using paraSplit_filter_flatten t
    · rw [split_by_fixed_chunks_flatten hmax]

theorem matcherOk_bold : MatcherOk matchBoldAt := fun _ _ h => matchBoldAt_some h

theorem matcherOk_header : MatcherOk matchHeaderAt := fun _ _ h => matchHeaderAt_some h

theorem pySlice_append {t : List Char} {a b c : Nat} (hab : a ≤ b) (hbc : b ≤ c)
    (hat : a ≤ t.length) :
    pySlice t a b ++ pySlice t b c = pySlice t a c := by
  unfold pySlice
  have h1 : t.take c = t.take b ++ (t.take c).drop b := by
    conv_lhs => rw [← List.take_append_drop b (t.take c)]
    rw [List.take_take, Nat.min_eq_left hbc]
  conv_rhs => rw [h1]
  rw [List.drop_append_eq_append_drop]
  have h2 : a - (t.take b).length = 0 := by
    simp [List.length_take]; omega
  rw [h2, List.drop_zero]

theorem pySlice_to_length (t : List Char) (a : Nat) : pySlice t a t.length = t.drop a := by
  simp [pySlice]

theorem pySlice_self (t : List Char) : pySlice t t.length t.length = [] := by
  simp [pySlice]

theorem boldChunksLoop_mem {text : List Char} {maxLength : Nat} (hmax : 1 ≤ maxLength) :
    ∀ (ms : List (Nat × Nat)) (lo : Nat), ChainedIn text.length lo ms →
      ∀ c ∈ boldChunksLoop text maxLength ms, c.length ≤ maxLength ∧ c ≠ [] := by
  intro ms
  induction ms with
  | nil => intro lo _ c hc; simp [boldChunksLoop] at hc
  | cons p rest ih =>
    obtain ⟨s, e⟩ := p
    intro lo hch c hc
    obtain ⟨hlos, hse, hen, hch2⟩ := hch
    have hend : e ≤ firstStart text.length rest ∧ firstStart text.length rest ≤ text.length := by
      cases rest with
      | nil => exact ⟨hen, le_refl _⟩
      | cons q qs =>
        obtain ⟨qa, qb⟩ := q
        obtain ⟨h1, h2, h3, _⟩ := hch2
        exact ⟨h1, by simp [firstStart]; omega⟩
    have hslen : (pySlice text s (firstStart text.length rest)).length
        = firstStart text.length rest - s := by
      rw [length_pySlice]
      omega
    have hpos : 0 < (pySlice text s (firstStart text.length rest)).length := by
      rw [hslen]; omega
    have hne : pySlice text s (firstStart text.length rest) ≠ [] := by
      intro h; rw [h] at hpos; simp at hpos
    by_cases hfit : (pySlice text s (firstStart text.length rest)).length ≤ maxLength
    · simp only [boldChunksLoop, hfit, if_true, List.mem_append, List.mem_singleton] at hc
      rcases hc with hc | hc
      · subst hc; exact ⟨hfit, hne⟩
      · exact ih e hch2 c hc
    · simp only [boldChunksLoop, hfit, if_false, List.mem_append] at hc
      rcases hc with hc | hc
      · have := split_by_paragraphs_mem hmax c hc
        exact ⟨this.1, this.2 hne⟩
      · exact ih e hch2 c hc

theorem boldChunksLoop_filter_flatten {text : List Char} {maxLength : Nat} (hmax : 1 ≤ maxLength) :
    ∀ (ms : List (Nat × Nat)) (lo : Nat), ChainedIn text.length lo ms →
      filterNl (boldChunksLoop text maxLength ms).flatten
        = filterNl (pySlice text (firstStart text.length ms) text.length) := by
  intro ms
  induction ms with
  | nil =>
    intro lo _
    simp [boldChunksLoop, firstStart, pySlice_self, filterNl]
  | cons p rest ih =>
    obtain ⟨s, e⟩ := p
    intro lo hch
    obtain ⟨hlos, hse, hen, hch2⟩ := hch
    have hend : e ≤ firstStart text.length rest ∧ firstStart text.length rest ≤ text.length := by
      cases rest with
      | nil => exact ⟨hen, le_refl _⟩
      | cons q qs =>
        obtain ⟨qa, qb⟩ := q
        obtain ⟨h1, h2, h3, _⟩ := hch2
        exact ⟨h1, by simp [firstStart]; omega⟩
    have hchunk : ∀ part, part = pySlice text s (firstStart text.length rest) →
        filterNl ((if part.length ≤ maxLength then [part]
          else split_by_paragraphs part maxLength)).flatten = filterNl part := by
      intro part hp
      split
      · simp
      · exact split_by_paragraphs_filter_flatten hmax
    simp only [boldChunksLoop, List.flatten_append, filterNl_append,
      hchunk _ rfl, ih e hch2]
    rw [← filterNl_append, pySlice_append (by omega) (by exact hend.2) (by omega)]
    simp [firstStart]

theorem headerChunksLoop_mem {text : List Char} {maxLength : Nat}
    (hbold : ∀ (u : List Char), ∀ c ∈ split_by_bold_text u maxLength,
      c.length ≤ maxLength ∧ (u ≠ [] → c ≠ [])) :
    ∀ (ms : List (Nat × Nat)) (lo : Nat), ChainedIn text.length lo ms →
      ∀ c ∈ headerChunksLoop text maxLength ms, c.length ≤ maxLength ∧ c ≠ [] := by
  intro ms
  induction ms with
  | nil => intro lo _ c hc; simp [headerChunksLoop] at hc
  | cons p rest ih =>
    obtain ⟨s, e⟩ := p
    intro lo hch c hc
    obtain ⟨hlos, hse, hen, hch2⟩ := hch
    have hend : e ≤ firstStart text.length rest ∧ firstStart text.length rest ≤ text.length := by
      cases rest with
      | nil => exact ⟨hen, le_refl _⟩
      | cons q qs =>
        obtain ⟨qa, qb⟩ := q
        obtain ⟨h1, h2, h3, _⟩ := hch2
        exact ⟨h1, by simp [firstStart]; omega⟩
    have hslen : (pySlice text s (firstStart text.length rest)).length
        = firstStart text.length rest - s := by
      rw [length_pySlice]
      omega
    have hpos : 0 < (pySlice text s (firstStart text.length rest)).length := by
      rw [hslen]; omega
    have hne : pySlice text s (firstStart text.length rest) ≠ [] := by
      intro h; rw [h] at hpos; simp at hpos
    by_cases hfit : (pySlice text s (firstStart text.length rest)).length ≤ maxLength
    · simp only [headerChunksLoop, hfit, if_true, List.mem_append, List.mem_singleton] at hc
      rcases hc with hc | hc
      · subst hc; exact ⟨hfit, hne⟩
      · exact ih e hch2 c hc
    · simp only [headerChunksLoop, hfit, if_false, List.mem_append] at hc
      rcases hc with hc | hc
      · have := hbold _ c hc
        exact ⟨this.1, this.2 hne⟩
      · exact ih e hch2 c hc

theorem headerChunksLoop_filter_flatten {text : List Char} {maxLength : Nat}
    (hbold : ∀ (u : List Char),
      filterNl (split_by_bold_text u maxLength).flatten = filterNl u) :
    ∀ (ms : List (Nat × Nat)) (lo : Nat), ChainedIn text.length lo ms →
      filterNl (headerChunksLoop text maxLength ms).flatten
        = filterNl (pySlice text (firstStart text.length ms) text.length) := by
  intro ms
  induction ms with
  | nil =>
    intro lo _
    simp [headerChunksLoop, firstStart, pySlice_self, filterNl]
  | cons p rest ih =>
    obtain ⟨s, e⟩ := p
    intro lo hch
    obtain ⟨hlos, hse, hen, hch2⟩ := hch
    have hend : e ≤ firstStart text.length rest ∧ firstStart text.length rest ≤ text.length := by
      cases rest with
      | nil => exact ⟨hen, le_refl _⟩
      | cons q qs =>
        obtain ⟨qa, qb⟩ := q
        obtain ⟨h1, h2, h3, _⟩ := hch2
        exact ⟨h1, by simp [firstStart]; omega⟩
    have hchunk : filterNl ((if (pySlice text s (firstStart text.length rest)).length ≤ maxLength
        then [pySlice text s (firstStart text.length rest)]
        else split_by_bold_text (pySlice text s (firstStart text.length rest)) maxLength)).flatten
        = filterNl (pySlice text s (firstStart text.length rest)) := by
      split
      · simp
      · exact hbold _
    simp only [headerChunksLoop, List.flatten_append, filterNl_append, hchunk, ih e hch2]
    rw [← filterNl_append, pySlice_append (by omega) (by exact hend.2) (by omega)]
    simp [firstStart]

theorem leadChunks_mem {text : List Char} {maxLength : Nat} (hmax : 1 ≤ maxLength)
    (htext : text ≠ []) {s0 : Nat} :
    ∀ c ∈ leadChunks text maxLength s0, c.length ≤ maxLength ∧ c ≠ [] := by
  intro c hc
  unfold leadChunks at hc
  split at hc
  · next hs0 =>
    have hpre : text.take s0 ≠ [] := by
      intro h
      have := congrArg List.length h
      simp at this
      rcases this with h1 | h1
      · omega
      · exact htext h1
    by_cases hfit : (text.take s0).length ≤ maxLength
    · simp only [hfit, if_true, List.mem_singleton] at hc
      subst hc
      exact ⟨hfit, hpre⟩
    · simp only [hfit, if_false] at hc
      have := split_by_paragraphs_mem hmax c hc
      exact ⟨this.1, this.2 hpre⟩
  · simp at hc

theorem leadChunks_filter_flatten {text : List Char} {maxLength : Nat} (hmax : 1 ≤ maxLength)
    (s0 : Nat) :
    filterNl (leadChunks text maxLength s0).flatten = filterNl (text.take s0) := by
  unfold leadChunks
  split
  · split
    · simp
    · exact split_by_paragraphs_filter_flatten hmax
  · next h =>
    have : s0 = 0 := by omega
    subst this
    simp [filterNl]

theorem split_by_bold_text_mem {t : List Char} {maxLength : Nat} (hmax : 1 ≤ maxLength) :
    ∀ c ∈ split_by_bold_text t maxLength, c.length ≤ maxLength ∧ (t ≠ [] → c ≠ []) := by
  intro c hc
  unfold split_by_bold_text at hc
  split at hc
  · simp at hc; subst hc; exact ⟨by assumption, fun h => h⟩
  · next hlen =>
    have htext : t ≠ [] := by
      intro h; subst h; simp at hlen
    split at hc
    · have := split_by_paragraphs_mem hmax c hc
      exact ⟨this.1, fun _ => this.2 htext⟩
    · have hch := finditerFrom_chained matcherOk_bold t
      rcases List.mem_append.mp hc with hc | hc
      · have := leadChunks_mem hmax htext c hc
        exact ⟨this.1, fun _ => this.2⟩
      · have := boldChunksLoop_mem hmax _ 0 hch c hc
        exact ⟨this.1, fun _ => this.2⟩

theorem split_by_bold_text_filter_flatten {t : List Char} {maxLength : Nat}
    (hmax : 1 ≤ maxLength) :
    filterNl (split_by_bold_text t maxLength).flatten = filterNl t := by
  unfold split_by_bold_text
  split
  · simp
  · split
    · exact split_by_paragraphs_filter_flatten hmax
    · have hch := finditerFrom_chained matcherOk_bold t
      rw [List.flatten_append, filterNl_append, leadChunks_filter_flatten hmax,
        boldChunksLoop_filter_flatten hmax _ 0 hch, pySlice_to_length,
        ← filterNl_append, List.take_append_drop]

theorem split_by_headers_mem {t : List Char} {maxLength : Nat} (hmax : 1 ≤ maxLength) :
    split_by_headers t maxLength = [t] ∨
      ∀ c ∈ split_by_headers t maxLength, c.length ≤ maxLength ∧ c ≠ [] := by
  unfold split_by_headers
  split
  · exact Or.inl rfl
  · next hgt =>
    right
    intro c hc
    have hch := finditerFrom_chained matcherOk_header t
    have htext : t ≠ [] := by
      intro h
      subst h
      simp [finditerFrom, finditerF] at hgt
    rcases List.mem_append.mp hc with hc | hc
    · exact leadChunks_mem hmax htext c hc
    · exact headerChunksLoop_mem
        (fun u c hc => split_by_bold_text_mem hmax c hc) _ 0 hch c hc

theorem split_by_headers_filter_flatten {t : List Char} {maxLength : Nat}
    (hmax : 1 ≤ maxLength) :
    filterNl (split_by_headers t maxLength).flatten = filterNl t := by
  unfold split_by_headers
  split
  · simp
  · have hch := finditerFrom_chained matcherOk_header t
    rw [List.flatten_append, filterNl_append, leadChunks_filter_flatten hmax,
      headerChunksLoop_filter_flatten
        (fun u => split_by_bold_text_filter_flatten hmax) _ 0 hch, pySlice_to_length,
      ← filterNl_append, List.take_append_drop]

example : split_message "hello".toList = ["hello".toList] := by decide

/-! ### Claim theorems for the message splitter -/

/-- C3: for every text with `len(text) <= 4000`, `split_message(text)` returns
exactly the one-element list `[text]`, with the text unaltered. -/
theorem split_message_identity (t : List Char) (h : t.length ≤ 4000) :
    split_message t = [t] := by
  unfold split_message WHATSAPP_MAX_MESSAGE_LENGTH
  rw [if_pos h]

theorem split_message_identity_witness :
    ['h', 'i'].length ≤ 4000 ∧ split_message ['h', 'i'] = [['h', 'i']] :=
  ⟨by decide, split_message_identity ['h', 'i'] (by decide)⟩

/-- C2 counterexample: the claim "every chunk of `split_message(text)` has
length at most 4000 and is non-empty" fails at the concrete input `""`:
`split_message("")` returns `[""]`, whose only chunk is empty. -/
theorem split_message_nonempty_cex :
    ¬ (∀ (t : List Char), ∀ c ∈ split_message t, c.length ≤ 4000 ∧ c ≠ []) := by
  intro h
  exact (h [] [] (by decide)).2 rfl

/-- C2 (amended): for every input text, every chunk in `split_message(text)` has
length at most 4000, and is non-empty whenever the input text is non-empty
(the empty input yields the single empty chunk `[""]`). -/
theorem split_message_chunk_bounds (t : List Char) :
    ∀ c ∈ split_message t, c.length ≤ 4000 ∧ (t ≠ [] → c ≠ []) := by
  intro c hc
  unfold split_message WHATSAPP_MAX_MESSAGE_LENGTH at hc
  have hmax : (1 : Nat) ≤ 4000 := by omega
  split at hc
  · simp at hc; subst hc
    exact ⟨by assumption, fun h => h⟩
  · next hlen =>
    have htne : t ≠ [] := by
      intro h; subst h; simp at hlen
    split at hc
    · next hgt =>
      rcases @split_by_headers_mem t 4000 hmax with heq | hall
      · rw [heq] at hgt; simp at hgt
      · exact ⟨(hall c hc).1, fun _ => (hall c hc).2⟩
    · split at hc
      · have := split_by_bold_text_mem hmax c hc
        exact ⟨this.1, fun _ => this.2 htne⟩
      · have := split_by_paragraphs_mem hmax c hc
        exact ⟨this.1, this.2⟩

theorem split_message_chunk_bounds_witness :
    (['a'] ∈ split_message ['a']) ∧ (['a'].length ≤ 4000 ∧ (['a'] ≠ [] → ['a'] ≠ [])) :=
  ⟨by decide, split_message_chunk_bounds ['a'] ['a'] (by decide)⟩

/-- C4: for every input text, the chunks of `split_message(text)`, concatenated
in order, preserve exactly the non-newline characters of the text in order (the
only characters the splitter consumes or inserts are the newline characters of
paragraph separators), so no character data outside separator runs is dropped
or reordered. -/
theorem split_message_preserves_content (t : List Char) :
    filterNl (split_message t).flatten = filterNl t := by
  unfold split_message WHATSAPP_MAX_MESSAGE_LENGTH
  have hmax : (1 : Nat) ≤ 4000 := by omega
  split
  · simp
  · split
    · exact split_by_headers_filter_flatten hmax
    · split
      · exact split_by_bold_text_filter_flatten hmax
      · exact split_by_paragraphs_filter_flatten hmax
example : paraSplit "ab\n\ncd\n\n\nef".toList =
    ["ab".toList, "cd".toList, "ef".toList] := by decide
example : finditerFrom matchBoldAt "x*ab*y*cd*".toList 0 = [(1, 5), (6, 10)] := by decide
example : finditerFrom matchHeaderAt "*_h_*x".toList 0 = [(0, 5)] := by decide
example : matchBoldAt "**ab*".toList = none := by decide
example : split_by_fixed_chunks "abcde".toList 2 =
    ["ab".toList, "cd".toList, "e".toList] := by decide

/-! ## SHA-256 and HMAC-SHA256

Model of the Python standard library calls `hashlib.sha256` and
`hmac.new(key, msg, hashlib.sha256)` used by the signature-verification code.
Bytes are `Nat` values below 256; words are `Nat` values below `2^32`, wrapped
with `w32` where overflow matters (FIPS 180-4). -/

/-- Truncate to a 32-bit word. -/
def w32 (x : Nat) : Nat := x % 4294967296

/-- Rotate a 32-bit word right by `n`. -/
def rotr32 (n x : Nat) : Nat := w32 ((x >>> n) ||| (x <<< (32 - n)))

def xor3 (a b c : Nat) : Nat := (a ^^^ b) ^^^ c

def smallSigma0 (x : Nat) : Nat := xor3 (rotr32 7 x) (rotr32 18 x) (x >>> 3)

def smallSigma1 (x : Nat) : Nat := xor3 (rotr32 17 x) (rotr32 19 x) (x >>> 10)

def bigSigma0 (x : Nat) : Nat := xor3 (rotr32 2 x) (rotr32 13 x) (rotr32 22 x)

def bigSigma1 (x : Nat) : Nat := xor3 (rotr32 6 x) (rotr32 11 x) (rotr32 25 x)

/-- The 64 SHA-256 round constants (FIPS 180-4 §4.2.2, in decimal). -/
def sha256K : List Nat :=
  [1116352408, 1899447441, 3049323471, 3921009573, 961987163,
   1508970993, 2453635748, 2870763221, 3624381080, 310598401,
   607225278, 1426881987, 1925078388, 2162078206, 2614888103,
   3248222580, 3835390401, 4022224774, 264347078, 604807628,
   770255983, 1249150122, 1555081692, 1996064986, 2554220882,
   2821834349, 2952996808, 3210313671, 3336571891, 3584528711,
   113926993, 338241895, 666307205, 773529912, 1294757372,
   1396182291, 1695183700, 1986661051, 2177026350, 2456956037,
   2730485921, 2820302411, 3259730800, 3345764771, 3516065817,
   3600352804, 4094571909, 275423344, 430227734, 506948616,
   659060556, 883997877, 958139571, 1322822218, 1537002063,
   1747873779, 1955562222, 2024104815, 2227730452, 2361852424,
   2428436474, 2756734187, 3204031479, 3329325298]

/-- The SHA-256 initial hash value (FIPS 180-4 §5.3.3, in decimal). -/
def sha256H0 : List Nat :=
  [1779033703, 3144134277, 1013904242, 2773480762, 1359893119,
   2600822924, 528734635, 1541459225]

/-- A 64-bit value as 8 big-endian bytes. -/
def be64 (n : Nat) : List Nat :=
  [(n >>> 56) % 256, (n >>> 48) % 256, (n >>> 40) % 256, (n >>> 32) % 256,
   (n >>> 24) % 256, (n >>> 16) % 256, (n >>> 8) % 256, n % 256]

/-- A 32-bit word as 4 big-endian bytes. -/
def be32 (n : Nat) : List Nat :=
  [(n >>> 24) % 256, (n >>> 16) % 256, (n >>> 8) % 256, n % 256]

/-- SHA-256 padding: append `0x80`, zeros to 56 mod 64, and the 64-bit
big-endian bit length.  The zero count is `(55 - len) mod 64`, computed as
`(55 + 64 - len % 64) % 64` so that the truncating `Nat` subtraction never
fires (`55 + 64 - m ≥ 56` for every residue `m ≤ 63`). -/
def sha256Pad (msg : List Nat) : List Nat :=
  msg ++ 0x80 :: List.replicate ((55 + 64 - msg.length % 64) % 64) 0 ++ be64 (8 * msg.length)

/-- Big-endian 32-bit words from bytes. -/
def bytesToWords : List Nat → List Nat
  | b0 :: b1 :: b2 :: b3 :: rest =>
    (((b0 * 256 + b1) * 256 + b2) * 256 + b3) :: bytesToWords rest
  | _ => []

/-- Extend the 16-word message schedule by `k` further words. -/
def scheduleExtend : Nat → List Nat → List Nat
  | 0, w => w
  | k + 1, w =>
    scheduleExtend k (w ++ [w32 (smallSigma1 (w.getD (w.length - 2) 0) + w.getD (w.length - 7) 0
      + smallSigma0 (w.getD (w.length - 15) 0) + w.getD (w.length - 16) 0)])

/-- The SHA-256 working state. -/
structure Sha256State where
  a : Nat
  b : Nat
  c : Nat
  d : Nat
  e : Nat
  f : Nat
  g : Nat
  h : Nat
deriving Repr, DecidableEq

/-- One SHA-256 compression round, consuming one `(k, w)` pair. -/
def sha256Round (st : Sha256State) (kw : Nat × Nat) : Sha256State :=
  let ch := (st.e &&& st.f) ^^^ ((st.e ^^^ 0xFFFFFFFF) &&& st.g)
  let t1 := w32 (st.h + bigSigma1 st.e + ch + kw.1 + kw.2)
  let maj := xor3 (st.a &&& st.b) (st.a &&& st.c) (st.b &&& st.c)
  let t2 := w32 (bigSigma0 st.a + maj)
  ⟨w32 (t1 + t2), st.a, st.b, st.c, w32 (st.d + t1), st.e, st.f, st.g⟩

/-- Compress one 64-byte block into the running 8-word hash value. -/
def sha256Compress (hv : List Nat) (block : List Nat) : List Nat :=
  let w := scheduleExtend 48 (bytesToWords block)
  let st := (sha256K.zip w).foldl sha256Round
    ⟨hv.getD 0 0, hv.getD 1 0, hv.getD 2 0, hv.getD 3 0,
     hv.getD 4 0, hv.getD 5 0, hv.getD 6 0, hv.getD 7 0⟩
  [w32 (st.a + hv.getD 0 0), w32 (st.b + hv.getD 1 0), w32 (st.c + hv.getD 2 0),
   w32 (st.d + hv.getD 3 0), w32 (st.e + hv.getD 4 0), w32 (st.f + hv.getD 5 0),
   w32 (st.g + hv.getD 6 0), w32 (st.h + hv.getD 7 0)]

/-- Split a byte list into 64-byte blocks (fuelled; fuel `l.length` suffices). -/
def chunks64F : Nat → List Nat → List (List Nat)
  | _, [] => []
  | 0, _ :: _ => []
  | fuel + 1, b :: rest => (b :: rest).take 64 :: chunks64F fuel (rest.drop 63)

/-- SHA-256 of a byte list, as the 32 digest bytes. -/
def sha256 (msg : List Nat) : List Nat :=
  (((chunks64F (sha256Pad msg).length (sha256Pad msg)).foldl sha256Compress sha256H0).map
    be32).flatten

/-- The HMAC block-sized key: keys longer than the 64-byte block are first
hashed, then the key is zero-padded to 64 bytes. -/
def hmacPadKey (key : List Nat) : List Nat :=
  (if 64 < key.length then sha256 key else key)
    ++ List.replicate (64 - (if 64 < key.length then sha256 key else key).length) 0

/-- HMAC-SHA256 (RFC 2104) of a message under a key, as the 32 digest bytes:
`H((K ⊕ opad) ‖ H((K ⊕ ipad) ‖ msg))`. -/
def hmacSha256 (key msg : List Nat) : List Nat :=
  sha256 ((hmacPadKey key).map (fun b => b ^^^ 0x5c)
    ++ sha256 ((hmacPadKey key).map (fun b => b ^^^ 0x36) ++ msg))

/-- Lower-case hex digit. -/
def hexChar (n : Nat) : Char := if n < 10 then Char.ofNat (48 + n) else Char.ofNat (87 + n)

/-- `.hexdigest()`: the digest bytes as lower-case hex characters. -/
def hexDigest (bs : List Nat) : List Char :=
  (bs.map (fun b => [hexChar ((b >>> 4) % 16), hexChar (b % 16)])).flatten

/-- UTF-8 encoding of one character (`str.encode('utf-8')`). -/
def utf8Char (c : Char) : List Nat :=
  if c.toNat < 0x80 then [c.toNat]
  else if c.toNat < 0x800 then
    [0xC0 ||| (c.toNat >>> 6), 0x80 ||| (c.toNat &&& 0x3F)]
  else if c.toNat < 0x10000 then
    [0xE0 ||| (c.toNat >>> 12), 0x80 ||| ((c.toNat >>> 6) &&& 0x3F), 0x80 ||| (c.toNat &&& 0x3F)]
  else
    [0xF0 ||| (c.toNat >>> 18), 0x80 ||| ((c.toNat >>> 12) &&& 0x3F),
     0x80 ||| ((c.toNat >>> 6) &&& 0x3F), 0x80 ||| (c.toNat &&& 0x3F)]

/-- UTF-8 encoding of a string. -/
def utf8Encode (s : List Char) : List Nat := (s.map utf8Char).flatten

set_option maxRecDepth 1000000 in
example : hexDigest (sha256 []) =
    "e3b0c44298fc1c149afbf4c8996fb92427ae41e4649b934ca495991b7852b855".toList := by decide

set_option maxRecDepth 1000000 in
example : hexDigest (sha256 (utf8Encode "abc".toList)) =
    "ba7816bf8f01cfea414140de5dae2223b00361a396177a9cb410ff61f20015ad".toList := by decide

set_option maxRecDepth 1000000 in
example : hexDigest (sha256 (utf8Encode
      "abcdbcdecdefdefgefghfghighijhijkijkljklmklmnlmnomnopnopq".toList)) =
    "248d6a61d20638b8e5c026930c3e6039a33ce45964ff2167f6ecedd419db06c1".toList := by decide

set_option maxRecDepth 1000000 in
example : hexDigest (sha256 (List.replicate 63 98)) =
    "94e419fabac7f930810f9636354042f8c1426d2f834d4ab65c93dc1e69326b13".toList := by decide

set_option maxRecDepth 1000000 in
example : hexDigest (hmacSha256 (utf8Encode "key".toList) (List.replicate 56 97)) =
    "e9613a403652aa5873dba8b56f223826236e87559a8d8ac63190613796d2319a".toList := by decide

/-! ## Signature verification (`whatsapp_webhook_utils.py`) -/

/-- Python `str` whitespace (the characters removed by `str.strip()`). -/
def isPySpace (c : Char) : Bool :=
  c == ' ' || c == '\t' || c == '\n' || c == '\r' || c == Char.ofNat 11 || c == Char.ofNat 12

/-- Python `s.strip()`. -/
def pyStrip (s : List Char) : List Char :=
  ((s.dropWhile isPySpace).reverse.dropWhile isPySpace).reverse

/-- Worker for `s.split(',')`; `acc` is the current piece, reversed. -/
def pySplitCommaAux : List Char → List Char → List (List Char)
  | acc, [] => [acc.reverse]
  | acc, c :: rest =>
    if c = ',' then acc.reverse :: pySplitCommaAux [] rest
    else pySplitCommaAux (c :: acc) rest

/-- Python `s.split(',')`. -/
def pySplitComma (s : List Char) : List (List Char) := pySplitCommaAux [] s

/-- The literal `"sha256="`. -/
def sigMarker : List Char := ['s', 'h', 'a', '2', '5', '6', '=']

/-- Fuelled worker for `s.replace("sha256=", "")`: scan left to right and drop
every (non-overlapping) occurrence of the 7-character marker. -/
def pyReplaceDropF : Nat → List Char → List Char
  | _, [] => []
  | 0, s => s
  | fuel + 1, c :: rest =>
    if sigMarker.isPrefixOf (c :: rest) then pyReplaceDropF fuel ((c :: rest).drop 7)
    else c :: pyReplaceDropF fuel rest

/-- Python `s.replace("sha256=", "")`. -/
def pyReplaceDrop (s : List Char) : List Char := pyReplaceDropF s.length s

/-- `_verify_signature_with_secret(secret, body_bytes, received_signature)`:
HMAC-SHA256 of the body under the UTF-8 encoded secret, hex-encoded, compared
with the received signature (`hmac.compare_digest` is semantically equality;
its constant-time execution has no observable counterpart here). -/
def verify_signature_with_secret (secret : List Char) (bodyBytes : List Nat)
    (receivedSignature : List Char) : Bool :=
  hexDigest (hmacSha256 (utf8Encode secret) bodyBytes) == receivedSignature

/-- `_verify_signature_multi(secrets_str, body_bytes, received_signature)`:
split the configured string on commas, strip each piece, and try each secret in
order — but only the first `len(app_names) = 3` of them; secrets at indices
`i >= 3` are skipped by the `continue`. -/
def verify_signature_multi (secretsStr : List Char) (bodyBytes : List Nat)
    (receivedSignature : List Char) : Bool :=
  (((pySplitComma secretsStr).map pyStrip).take 3).any
    (fun s => verify_signature_with_secret s bodyBytes receivedSignature)

/-- `verify_meta_signature(request)`, with the raw body bytes and the optional
`X-Hub-Signature-256` header value as inputs (`request.headers.get` defaults to
`""`); `true` means the request is accepted, `false` means HTTP 403. -/
def verify_meta_signature (secretsStr : List Char) (bodyBytes : List Nat)
    (signatureHeader : Option (List Char)) : Bool :=
  if (signatureHeader.getD []).isEmpty
      || !(sigMarker.isPrefixOf (signatureHeader.getD [])) then false
  else verify_signature_multi secretsStr bodyBytes (pyReplaceDrop (signatureHeader.getD []))

/-! ### Signature-verification lemmas -/

theorem isPrefixOf_sigMarker_eq_false {s : List Char} (h : '=' ∉ s) :
    sigMarker.isPrefixOf s = false := by
  by_contra hne
  have hpre : sigMarker <+: s := by
    rw [← List.isPrefixOf_iff_prefix]
    revert hne
    cases sigMarker.isPrefixOf s <;> simp
  obtain ⟨t, ht⟩ := hpre
  apply h
  rw [← ht]
  simp [sigMarker]

theorem pyReplaceDropF_no_marker {s : List Char} (h : '=' ∉ s) :
    ∀ fuel, pyReplaceDropF fuel s = s := by
  induction s with
  | nil => intro fuel; cases fuel <;> rfl
  | cons c rest ih =>
    intro fuel
    cases fuel with
    | zero => rfl
    | succ fuel =>
      have hno : sigMarker.isPrefixOf (c :: rest) = false :=
        isPrefixOf_sigMarker_eq_false h
      simp only [pyReplaceDropF, hno, Bool.false_eq_true, if_false]
      rw [ih (by simp at h; exact fun hm => h.2 hm) fuel]

theorem pyReplaceDrop_strips_marker {d : List Char} (h : '=' ∉ d) :
    pyReplaceDrop (sigMarker ++ d) = d := by
  unfold pyReplaceDrop
  have hlen : (sigMarker ++ d).length = (6 + d.length) + 1 := by
    simp [sigMarker]; omega
  rw [hlen]
  have hcons : sigMarker ++ d = 's' :: (['h', 'a', '2', '5', '6', '='] ++ d) := rfl
  rw [hcons]
  have hpre : sigMarker.isPrefixOf ('s' :: (['h', 'a', '2', '5', '6', '='] ++ d)) = true := by
    rw [List.isPrefixOf_iff_prefix]
    exact List.prefix_append sigMarker d
  simp only [pyReplaceDropF, hpre, if_true]
  have hdrop : ('s' :: (['h', 'a', '2', '5', '6', '='] ++ d)).drop 7 = d := rfl
  rw [hdrop]
  exact pyReplaceDropF_no_marker h _

theorem set_ne_self_of_ne {α : Type} {l : List α} {i : Nat} {c : α} (hi : i < l.length)
    (hne : l.get ⟨i, hi⟩ ≠ c) : l.set i c ≠ l := by
  intro heq
  apply hne
  have h1 : (l.set i c)[i]? = some c := List.getElem?_set_self (by simpa using hi)
  rw [heq, List.getElem?_eq_getElem hi] at h1
  simpa [List.get_eq_getElem] using h1

/-! ### Claim theorems for signature verification -/

/-- Concrete inputs refuting C1 as stated: four configured secrets `"a,b,c,d"`,
body `"x"`, and a well-formed header carrying the genuine HMAC digest of the
body under the fourth secret `"d"`. -/
def cexSecretsStr : List Char := "a,b,c,d".toList

def cexBody : List Nat := utf8Encode "x".toList

def cexDigest : List Char := hexDigest (hmacSha256 (utf8Encode "d".toList) cexBody)

set_option maxRecDepth 1000000 in
/-- C1 counterexample: the header `"sha256=" + hex(hmac_sha256("d", body))` is
well-formed and the configured comma-separated secrets `"a,b,c,d"` contain the
matching secret `"d"`, yet `verify_meta_signature` rejects the request, because
`_verify_signature_multi` skips every configured secret beyond the first three
(the `continue` for indices `i >= len(app_names)`). -/
theorem verify_meta_signature_fourth_secret_cex :
    ("d".toList ∈ (pySplitComma cexSecretsStr).map pyStrip)
      ∧ sigMarker.isPrefixOf (sigMarker ++ cexDigest) = true
      ∧ hexDigest (hmacSha256 (utf8Encode "d".toList) cexBody) = cexDigest
      ∧ verify_meta_signature cexSecretsStr cexBody (some (sigMarker ++ cexDigest)) = false := by
  refine ⟨by decide, by decide, rfl, by decide⟩

/-- C1 (amended): `verify_meta_signature` rejects a missing header and a header
not prefixed `"sha256="`; for a header `"sha256=" + d` with `d` free of `'='`
(every hex digest is), it accepts exactly when one of the **first three**
configured comma-separated secrets (split on `','`, stripped) has
`hex(hmac_sha256(secret, body)) = d`; any single-character mutation of a
matching digest makes that secret's comparison fail, and a change of the body
that changes the body's HMAC digest under a secret makes that secret's
comparison fail. -/
theorem verify_meta_signature_spec (secretsStr : List Char) (bodyBytes : List Nat) :
    (verify_meta_signature secretsStr bodyBytes none = false)
    ∧ (∀ h, sigMarker.isPrefixOf h = false →
        verify_meta_signature secretsStr bodyBytes (some h) = false)
    ∧ (∀ d, '=' ∉ d →
        (verify_meta_signature secretsStr bodyBytes (some (sigMarker ++ d)) = true ↔
          ∃ s ∈ ((pySplitComma secretsStr).map pyStrip).take 3,
            hexDigest (hmacSha256 (utf8Encode s) bodyBytes) = d))
    ∧ (∀ s i c (hi : i < (hexDigest (hmacSha256 (utf8Encode s) bodyBytes)).length),
        (hexDigest (hmacSha256 (utf8Encode s) bodyBytes)).get ⟨i, hi⟩ ≠ c →
        verify_signature_with_secret s bodyBytes
          ((hexDigest (hmacSha256 (utf8Encode s) bodyBytes)).set i c) = false)
    ∧ (∀ s (bodyBytes' : List Nat),
        hexDigest (hmacSha256 (utf8Encode s) bodyBytes')
          ≠ hexDigest (hmacSha256 (utf8Encode s) bodyBytes) →
        verify_signature_with_secret s bodyBytes'
          (hexDigest (hmacSha256 (utf8Encode s) bodyBytes)) = false) := by
  refine ⟨rfl, ?_, ?_, ?_, ?_⟩
  · intro h hpre
    unfold verify_meta_signature
    cases h with
    | nil => rfl
    | cons c rest => simp [hpre]
  · intro d hd
    unfold verify_meta_signature
    have hemp : (sigMarker ++ d).isEmpty = false := rfl
    have hpre : sigMarker.isPrefixOf (sigMarker ++ d) = true := by
      rw [List.isPrefixOf_iff_prefix]
      exact List.prefix_append sigMarker d
    simp only [Option.getD_some, hemp, hpre, Bool.not_true, Bool.or_false, Bool.false_eq_true,
      if_false, pyReplaceDrop_strips_marker hd]
    unfold verify_signature_multi
    rw [List.any_eq_true]
    constructor
    · rintro ⟨s, hs, hv⟩
      exact ⟨s, hs, by simpa [verify_signature_with_secret, beq_iff_eq] using hv⟩
    · rintro ⟨s, hs, hv⟩
      exact ⟨s, hs, by simpa [verify_signature_with_secret, beq_iff_eq] using hv⟩
  · intro s i c hi hne
    unfold verify_signature_with_secret
    rw [beq_eq_false_iff_ne]
    exact fun heq => set_ne_self_of_ne hi hne heq.symm
  · intro s bodyBytes' hne
    unfold verify_signature_with_secret
    rw [beq_eq_false_iff_ne]
    exact hne

/-! ## Webhook payload parsing (`parse_meta_payload`) -/

/-- JSON values, the shape of a parsed webhook body. -/
inductive JVal where
  | null
  | bool (b : Bool)
  | num (n : Int)
  | str (s : List Char)
  | arr (elems : List JVal)
  | obj (fields : List (List Char × JVal))

instance : Inhabited JVal := ⟨JVal.null⟩

/-- Python exceptions the parser can raise. -/
inductive PyErr where
  | exc (msg : String)
  | keyError (k : String)
  | valueError
  | typeError
deriving DecidableEq

/-- `dict` lookup (`d.get(k)` without default): first matching key. -/
def jGet : List (List Char × JVal) → List Char → Option JVal
  | [], _ => none
  | (k2, v) :: rest, k => if k2 == k then some v else jGet rest k

/-- Python truthiness of a JSON value (`None`, `False`, `0`, `""`, `[]`, `{}`
are falsy). -/
def pyTruthy : JVal → Bool
  | .null => false
  | .bool b => b
  | .num n => n != 0
  | .str s => !s.isEmpty
  | .arr l => !l.isEmpty
  | .obj f => !f.isEmpty

/-- `x[0].get(k, dflt)`: subscript then `dict.get` with default.  Any shape on
which Python would raise (`x` not a non-empty list, `x[0]` not a dict) is an
error; the exception's exact class is irrelevant downstream. -/
def index0Get (x : JVal) (k : List Char) (dflt : JVal) : Except PyErr JVal :=
  match x with
  | .arr (first :: _) =>
    match first with
    | .obj fields => .ok ((jGet fields k).getD dflt)
    | _ => .error (.exc "AttributeError")
  | .arr [] => .error (.exc "IndexError")
  | _ => .error (.exc "TypeError")

/-- Digit run to a number. -/
def ofDigits (ds : List Char) : Int :=
  ds.foldl (fun acc c => acc * 10 + (↑c.toNat - 48)) 0

def digitsToInt (ds : List Char) : Option Int :=
  if ds.isEmpty then none
  else if ds.all (fun c => c.isDigit) then some (ofDigits ds) else none

/-- Python `int(s)` on a string: optional surrounding whitespace, optional
sign, one or more decimal digits; anything else raises `ValueError`. -/
def pyIntOfChars (s : List Char) : Option Int :=
  match (((s.dropWhile isPySpace).reverse.dropWhile isPySpace).reverse) with
  | '+' :: ds => digitsToInt ds
  | '-' :: ds => (digitsToInt ds).map (fun n => -n)
  | ds => digitsToInt ds

/-- Python `int(x)` on a JSON value. -/
def pyInt : JVal → Except PyErr Int
  | .str s =>
    match pyIntOfChars s with
    | some n => .ok n
    | none => .error .valueError
  | .num n => .ok n
  | .bool b => .ok (if b then 1 else 0)
  | _ => .error .typeError

/-- The tuple returned by `parse_meta_payload`. -/
structure ParsedPayload where
  is_status : Option Bool
  is_target_business_number : Bool
  user_whatsapp_number : Option JVal
  incoming_msg_type : Option (List Char)
  incoming_msg_body : Option JVal
  message_id : Option JVal
  message_unix_time : Option Int

/-- The message-object part of `parse_meta_payload` (source lines 234-257):
read `id` (with `.get`), `from` (subscript: `KeyError` if missing), cast a
present non-null `timestamp` with `int(...)` (a missing or null timestamp
stays absent, a bad value raises), resolve `type` against the object's own
keys with `"errors"` as fallback, and look the body up under the resolved
type (subscript: `KeyError` if missing). -/
def parseMessageObj (msgFields : List (List Char × JVal)) : Except PyErr ParsedPayload :=
  match jGet msgFields "from".toList with
  | none => .error (.keyError "from")
  | some fromV =>
    match
      ((match jGet msgFields "timestamp".toList with
        | none => .ok none
        | some .null => .ok none
        | some v =>
          match pyInt v with
          | .ok n => .ok (some n)
          | .error e => .error e) : Except PyErr (Option Int)) with
    | .error e => .error e
    | .ok ts =>
      match jGet msgFields "type".toList with
      | none => .error (.keyError "type")
      | some tyV =>
        match
          (match tyV with
            | .str tstr => if msgFields.any (fun kv => kv.1 == tstr) then tstr
                           else "errors".toList
            | _ => "errors".toList) with
        | resolvedTy =>
          match jGet msgFields resolvedTy with
          | none => .error (.keyError "errors")
          | some bodyV =>
            .ok ⟨some false, true, some fromV, some resolvedTy, some bodyV,
              jGet msgFields "id".toList, ts⟩

/-- `parse_meta_payload(body)`, with the configured
`META_BUSINESS_PHONE_NUMBER_ID` as a parameter.  `Except.error` is a raised
exception, `Except.ok` the returned tuple. -/
def parse_meta_payload (cfgPhoneId : List Char) (body : List (List Char × JVal)) :
    Except PyErr ParsedPayload :=
  if !pyTruthy ((jGet body "object".toList).getD .null) then .error (.exc "invalid payload")
  else if !pyTruthy ((jGet body "entry".toList).getD (.arr [])) then
    .error (.exc "invalid payload")
  else
    match index0Get ((jGet body "entry".toList).getD (.arr [])) "changes".toList (.arr []) with
    | .error e => .error e
    | .ok changesV =>
      if !pyTruthy changesV then .error (.exc "invalid payload")
      else
        match index0Get changesV "value".toList (.obj []) with
        | .error e => .error e
        | .ok valueV =>
          if !pyTruthy valueV then .error (.exc "invalid payload")
          else
            match valueV with
            | .obj valueFields =>
              match jGet valueFields "metadata".toList with
              | none => .error (.exc "missing metadata")
              | some metaV =>
                match metaV with
                | .obj metaFields =>
                  match jGet metaFields "phone_number_id".toList with
                  | none => .error (.exc "missing phone_number_id")
                  | some pidV =>
                    if !(match pidV with
                          | .str s => s == cfgPhoneId
                          | _ => false) then
                      .ok ⟨none, false, none, none, none, none, none⟩
                    else if (jGet valueFields "statuses".toList).isSome then
                      .ok ⟨some true, true, none, none, none, none, none⟩
                    else
                      match jGet valueFields "messages".toList with
                      | none => .error (.exc "unsupported message type")
                      | some msgsV =>
                        match msgsV with
                        | .arr (first :: _) =>
                          match first with
                          | .obj msgFields => parseMessageObj msgFields
                          | _ => .error (.exc "AttributeError")
                        | .arr [] => .error (.exc "IndexError")
                        | _ => .error (.exc "TypeError")
                | _ => .error (.exc "TypeError")
            | _ => .error (.exc "TypeError")

/-- A webhook envelope that is valid down to the message object: the standard
`object → entry[0] → changes[0] → value` nesting with matching
`metadata.phone_number_id`, no `statuses`, and `messages = [msg]`. -/
def mkPayload (pid : List Char) (msg : List (List Char × JVal)) :
    List (List Char × JVal) :=
  [("object".toList, .str "whatsapp_business_account".toList),
   ("entry".toList, .arr [.obj [("changes".toList, .arr [.obj [("value".toList,
      .obj [("metadata".toList, .obj [("phone_number_id".toList, .str pid)]),
            ("messages".toList, .arr [.obj msg])])]])]])]

theorem parse_meta_payload_mkPayload (pid : List Char) (msg : List (List Char × JVal)) :
    parse_meta_payload pid (mkPayload pid msg) = parseMessageObj msg := by
  unfold parse_meta_payload mkPayload
  simp [jGet, index0Get, pyTruthy]

set_option maxRecDepth 1000000 in
theorem verify_meta_signature_spec_witness :
    verify_meta_signature "a,b".toList (utf8Encode "x".toList)
      (some (sigMarker ++ hexDigest (hmacSha256 (utf8Encode "a".toList)
        (utf8Encode "x".toList)))) = true :=
  ((verify_meta_signature_spec "a,b".toList (utf8Encode "x".toList)).2.2.1
      (hexDigest (hmacSha256 (utf8Encode "a".toList) (utf8Encode "x".toList)))
      (by decide)).mpr
    ⟨"a".toList, by decide, rfl⟩

/-! ## Time utilities (`time_utils.py`) -/

/-- `get_retention_time_seconds()`: `WHATSAPP_CHAT_RETENTION_HOURS * 60 * 60`. -/
def get_retention_time_seconds (retentionHours : Int) : Int := retentionHours * 60 * 60

/-- `is_message_too_old(message_unix_time)`, with the configured threshold and
the current time as parameters (times in whole seconds).  The guard
`if not message_unix_time` is Python truthiness: both `None` and `0` take it.
The `except` clause around `datetime.fromtimestamp` (out-of-range timestamps)
has no counterpart in integer arithmetic and is not modelled. -/
def is_message_too_old (thresholdSeconds now : Int) (messageUnixTime : Option Int) : Bool :=
  match messageUnixTime with
  | none => false
  | some t => if t == 0 then false else decide (now - t > thresholdSeconds)

/-- `calculate_time_passed(last_message_time)`: infinite when there is no last
message, else the elapsed seconds. -/
inductive PassedTime where
  | inf
  | fin (seconds : Int)
deriving DecidableEq

def calculate_time_passed (now : Int) (lastMessageTime : Option Int) : PassedTime :=
  match lastMessageTime with
  | none => .inf
  | some t => .fin (now - t)

/-- `passed_time > allowed_time`, where `passed_time` may be `float("inf")`. -/
def passedGT (p : PassedTime) (allowed : Int) : Bool :=
  match p with
  | .inf => true
  | .fin s => decide (s > allowed)

/-- The thread-expiry decision of `handle_text_message` (source line 228):
`if thread_id is None or passed_time > allowed_time`. -/
def needsNewThread (threadId : Option Int) (passedTime : PassedTime) (allowedTime : Int) :
    Bool :=
  threadId.isNone || passedGT passedTime allowedTime

/-! ## Conversation manager (`whatsapp_conversation_manager.py`)

`handle_text_message` as a trace of its outbound effects.  The environment
fixes the outcome of each external call (backend thread lookup/creation,
message processing) and whether the typing-indicator task is live; the trace
records, in program order, every `send_whatsapp_message` call and every
`typing_indicator_task.cancel()` call.  `format_for_whatsapp` enters only
through its result, so it is a parameter of the environment (the trace theorems
hold for every formatter, in particular the real one). -/

inductive SendEvent where
  | message (text : String)
  | cancelTyping
deriving DecidableEq

/-- Outcome of `ansari_client.process_message`. -/
inductive ProcResult where
  | ok (response : String)
  | procError
  | unexpected
deriving DecidableEq

/-- The external outcomes `handle_text_message` can observe. -/
structure HandleTextEnv where
  /-- Truthiness of `self.user_phone_num`. -/
  userPhoneNum : Bool
  /-- `self.incoming_msg_body["body"]`; `none` means the lookup raises, landing
  in the outer `except`. -/
  bodyText : Option String
  /-- `get_last_thread_info` result: `none` is `ThreadInfoError`, otherwise
  `(thread_id, last_message_time)`. -/
  threadInfo : Option (Option Int × Option Int)
  /-- `create_thread` result: `none` is `ThreadCreationError`. -/
  createThread : Option Int
  /-- `process_message` outcome. -/
  process : ProcResult
  /-- `self.typing_indicator_task and not self.typing_indicator_task.done()`. -/
  typingRunning : Bool
  now : Int
  retentionSeconds : Int
  /-- `format_for_whatsapp`. -/
  formatted : String → String

def cancelIfRunning (env : HandleTextEnv) : List SendEvent :=
  if env.typingRunning then [.cancelTyping] else []

/-- The tail of `handle_text_message` after thread resolution (source lines
242-292): process the message, cancel the typing task, and send the
response or a fallback. -/
def afterThreadResolution (env : HandleTextEnv) : List SendEvent :=
  match env.process with
  | .procError =>
    .message "An error occurred while processing your message. Please try again later."
      :: cancelIfRunning env
  | .unexpected =>
    .message "An unexpected error occurred while processing your message. Please try again later."
      :: cancelIfRunning env
  | .ok response =>
    cancelIfRunning env ++
      (if response = "" then
        [.message "Sorry, we couldn't process your message. Please try again later."]
      else if env.formatted response = "" then
        [.message "Sorry, we couldn't process your message. Please try again later.."]
      else [.message (env.formatted response)])

/-- `handle_text_message`, as the ordered trace of its outbound sends and
typing-task cancellations. -/
def handle_text_message (env : HandleTextEnv) : List SendEvent :=
  if !env.userPhoneNum then []
  else
    match env.bodyText with
    | none =>
      .message "An unexpected error occurred while processing your message. Please try again later."
        :: cancelIfRunning env
    | some _ =>
      match env.threadInfo with
      | none =>
        [.message "Sorry, we're having trouble accessing your chat history. Please try again later."]
      | some (threadId, lastMsgTime) =>
        if needsNewThread threadId (calculate_time_passed env.now lastMsgTime)
            env.retentionSeconds then
          match env.createThread with
          | none =>
            [.message "An unexpected error occurred while creating a new chat session. Please try again later."]
          | some _ => afterThreadResolution env
        else afterThreadResolution env

def isMessage : SendEvent → Bool
  | .message _ => true
  | .cancelTyping => false

/-- Index of the last send in a trace. -/
def lastMessageIdx (events : List SendEvent) : Option Nat :=
  match events.reverse.findIdx? isMessage with
  | none => none
  | some k => some (events.length - 1 - k)

/-- The property C6 claims of every execution: if anything is sent, the typing
cancellation happens and strictly precedes the final send. -/
def cancelBeforeFinalSend (events : List SendEvent) : Bool :=
  match lastMessageIdx events, events.findIdx? (fun e => e == .cancelTyping) with
  | some j, some i => decide (i < j)
  | some _, none => false
  | none, _ => true

/-! ## GET verification endpoint (`app/main.py`) -/

/-- The three response shapes of `verification_webhook`. -/
inductive VerifResponse where
  | ok (challenge : Option String)
  | forbidden
  | badRequest
deriving DecidableEq

/-- Python truthiness of `request.query_params.get(...)`: present and
non-empty. -/
def truthyParam : Option String → Bool
  | none => false
  | some s => !s.isEmpty

/-- `verification_webhook(request)` (source lines 117-130), with the
configured `META_WEBHOOK_VERIFY_TOKEN` and the three query parameters as
inputs. -/
def verification_webhook (cfgToken : String) (mode verifyToken challenge : Option String) :
    VerifResponse :=
  if truthyParam mode && truthyParam verifyToken then
    if mode == some "subscribe" && verifyToken == some cfgToken then .ok challenge
    else .forbidden
  else .badRequest

/-! ## Claim theorems for parsing, time, conversation manager, endpoint -/

/-- A message object that is valid except for its unparsable timestamp. -/
def c5BadTimestampMsg : List (List Char × JVal) :=
  [("id".toList, .str "wamid.test.1".toList),
   ("from".toList, .str "15551234567".toList),
   ("timestamp".toList, .str "abc".toList),
   ("type".toList, .str "text".toList),
   ("text".toList, .obj [("body".toList, .str "hello".toList)])]

/-- C5 counterexample: an otherwise-valid message webhook whose `timestamp` is
the non-integer string `"abc"` makes `parse_meta_payload` raise `ValueError`
(from the unconditional `int(...)` cast) instead of returning a descriptor with
`message_unix_time` absent, refuting the claim's "or not parsable as an
integer" half. -/
theorem parse_meta_payload_bad_timestamp_cex :
    parse_meta_payload "42".toList (mkPayload "42".toList c5BadTimestampMsg)
      = .error .valueError := by rfl

/-- C5 (amended): for every otherwise-valid message webhook, a missing
`timestamp` yields a descriptor with `message_unix_time` absent and no
exception, but a present timestamp that is a non-integer string raises
`ValueError` — the code guards only `None`, not parse failures. -/
theorem parse_meta_payload_timestamp_handling (pid : List Char)
    (msg : List (List Char × JVal)) :
    (∀ f ty b, jGet msg "from".toList = some f →
      jGet msg "timestamp".toList = none →
      jGet msg "type".toList = some (.str ty) →
      msg.any (fun kv => kv.1 == ty) = true →
      jGet msg ty = some b →
      parse_meta_payload pid (mkPayload pid msg)
        = .ok ⟨some false, true, some f, some ty, some b, jGet msg "id".toList, none⟩)
    ∧ (∀ f s, jGet msg "from".toList = some f →
      jGet msg "timestamp".toList = some (.str s) →
      pyIntOfChars s = none →
      parse_meta_payload pid (mkPayload pid msg) = .error .valueError) := by
  constructor
  · intro f ty b hfrom hts hty hkey hb
    rw [parse_meta_payload_mkPayload]
    simp only [parseMessageObj, hfrom, hts, hty, hkey, hb, eq_self_iff_true, if_true]
  · intro f s hfrom hts hint
    rw [parse_meta_payload_mkPayload]
    simp only [parseMessageObj, hfrom, hts, pyInt, hint]

/-- A message object without a timestamp, for the C5 witness. -/
def c5NoTimestampMsg : List (List Char × JVal) :=
  [("id".toList, .str "wamid.test.1".toList),
   ("from".toList, .str "15551234567".toList),
   ("type".toList, .str "text".toList),
   ("text".toList, .obj [("body".toList, .str "hello".toList)])]

theorem parse_meta_payload_timestamp_handling_witness :
    parse_meta_payload "42".toList (mkPayload "42".toList c5NoTimestampMsg)
      = .ok ⟨some false, true, some (.str "15551234567".toList), some "text".toList,
          some (.obj [("body".toList, .str "hello".toList)]),
          some (.str "wamid.test.1".toList), none⟩ :=
  (parse_meta_payload_timestamp_handling "42".toList c5NoTimestampMsg).1
    (.str "15551234567".toList) "text".toList
    (.obj [("body".toList, .str "hello".toList)]) rfl rfl rfl (by decide) rfl

/-- C9: for a message webhook whose message object's declared `type` is not
itself a key of the message object and which has no `errors` key, the
substituted body lookup `incoming_msg[incoming_msg_type]` is unguarded, so
`parse_meta_payload` raises `KeyError("errors")` instead of returning a
descriptor with an absent `message_body`. -/
theorem parse_meta_payload_unknown_type_raises (pid : List Char)
    (msg : List (List Char × JVal)) (f : JVal) (ty : List Char)
    (hfrom : jGet msg "from".toList = some f)
    (hts : jGet msg "timestamp".toList = none ∨
      ∃ s n, jGet msg "timestamp".toList = some (.str s) ∧ pyIntOfChars s = some n)
    (hty : jGet msg "type".toList = some (.str ty))
    (hnokey : msg.any (fun kv => kv.1 == ty) = false)
    (herr : jGet msg "errors".toList = none) :
    parse_meta_payload pid (mkPayload pid msg) = .error (.keyError "errors") := by
  rw [parse_meta_payload_mkPayload]
  rcases hts with hts | ⟨s, n, hts, hint⟩
  · simp only [parseMessageObj, hfrom, hts, hty, hnokey, herr, Bool.false_eq_true, if_false]
  · simp only [parseMessageObj, hfrom, hts, hty, hnokey, herr, pyInt, hint,
      Bool.false_eq_true, if_false]

/-- A message object declaring an unsupported type with no matching key and no
`errors` key, for the C9 witness. -/
def c9PollMsg : List (List Char × JVal) :=
  [("id".toList, .str "wamid.test.2".toList),
   ("from".toList, .str "15551234567".toList),
   ("type".toList, .str "poll".toList)]

theorem parse_meta_payload_unknown_type_raises_witness :
    parse_meta_payload "42".toList (mkPayload "42".toList c9PollMsg)
      = .error (.keyError "errors") :=
  parse_meta_payload_unknown_type_raises "42".toList c9PollMsg
    (.str "15551234567".toList) "poll".toList rfl (Or.inl rfl) rfl (by decide) rfl

/-- C10: `is_message_too_old(0)` returns false for every threshold and current
time — a `message_unix_time` of `0` (the Unix epoch) falls into the
`if not message_unix_time` truthiness guard and is treated exactly like an
absent timestamp, so such a message is never filtered as too old. -/
theorem is_message_too_old_epoch_zero (thr now : Int) :
    is_message_too_old thr now (some 0) = false
      ∧ is_message_too_old thr now (some 0) = is_message_too_old thr now none :=
  ⟨rfl, rfl⟩

/-- C7: with a last thread present, a `last_message_time` exactly
`retention_window + 1` seconds before now triggers a new thread, one exactly
`retention_window - 1` seconds before now reuses the thread, and in general the
comparison is strict: a new thread is created iff no thread exists, or no last
message time exists, or the elapsed time strictly exceeds the retention
window (`retention_hours * 60 * 60` seconds). -/
theorem thread_retention_boundary (now hours : Int) (tid : Int)
    (tidOpt : Option Int) (lastOpt : Option Int) :
    (needsNewThread (some tid)
        (calculate_time_passed now (some (now - (get_retention_time_seconds hours + 1))))
        (get_retention_time_seconds hours) = true)
    ∧ (needsNewThread (some tid)
        (calculate_time_passed now (some (now - (get_retention_time_seconds hours - 1))))
        (get_retention_time_seconds hours) = false)
    ∧ (needsNewThread tidOpt (calculate_time_passed now lastOpt)
        (get_retention_time_seconds hours) = true ↔
      tidOpt = none ∨ lastOpt = none ∨
        ∃ t, lastOpt = some t ∧ now - t > get_retention_time_seconds hours) := by
  refine ⟨?_, ?_, ?_⟩
  · simp only [needsNewThread, calculate_time_passed, passedGT, Option.isNone_some,
      Bool.false_or]
    rw [decide_eq_true_eq]
    omega
  · simp only [needsNewThread, calculate_time_passed, passedGT, Option.isNone_some,
      Bool.false_or]
    rw [decide_eq_false_iff_not]
    omega
  · cases tidOpt <;> cases lastOpt <;>
      simp [needsNewThread, calculate_time_passed, passedGT]

/-- Environment refuting C6: thread resolution succeeds, `process_message`
raises `MessageProcessingError`, and the typing task is live. -/
def c6CexEnv : HandleTextEnv :=
  ⟨true, some "hi", some (some 7, some 50), some 8, .procError, true, 60, 10800, fun s => s⟩

/-- C6 counterexample: on the `MessageProcessingError` path the error message
is sent *before* the typing-indicator task is cancelled, so the cancellation
does not precede the final outbound send: the claim's "on failure alike" half
is false. -/
theorem handle_text_message_cancel_after_send_cex :
    handle_text_message c6CexEnv =
      [.message "An error occurred while processing your message. Please try again later.",
       .cancelTyping]
      ∧ cancelBeforeFinalSend (handle_text_message c6CexEnv) = false :=
  ⟨rfl, rfl⟩

/-- C6 (amended): with the typing task live, on the success path (processing
returns, including the empty-response fallbacks) the typing cancellation
strictly precedes the final outbound send; but on the
`MessageProcessingError` and unexpected-exception paths the error message is
sent first and the cancellation follows it, and on the `ThreadInfoError` and
`ThreadCreationError` paths the error message is sent and the typing task is
never cancelled. -/
theorem handle_text_message_cancel_order (env : HandleTextEnv)
    (hrun : env.typingRunning = true) :
    (∀ r txt tid lmt, env.process = .ok r → env.bodyText = some txt →
      env.threadInfo = some (tid, lmt) → env.userPhoneNum = true →
      (needsNewThread tid (calculate_time_passed env.now lmt) env.retentionSeconds = false
        ∨ ∃ t2, env.createThread = some t2) →
      cancelBeforeFinalSend (handle_text_message env) = true)
    ∧ (∀ txt tid lmt, env.process = .procError → env.bodyText = some txt →
      env.threadInfo = some (tid, lmt) → env.userPhoneNum = true →
      (needsNewThread tid (calculate_time_passed env.now lmt) env.retentionSeconds = false
        ∨ ∃ t2, env.createThread = some t2) →
      handle_text_message env =
        [.message "An error occurred while processing your message. Please try again later.",
         .cancelTyping])
    ∧ (∀ txt tid lmt, env.process = .unexpected → env.bodyText = some txt →
      env.threadInfo = some (tid, lmt) → env.userPhoneNum = true →
      (needsNewThread tid (calculate_time_passed env.now lmt) env.retentionSeconds = false
        ∨ ∃ t2, env.createThread = some t2) →
      handle_text_message env =
        [.message "An unexpected error occurred while processing your message. Please try again later.",
         .cancelTyping])
    ∧ (∀ txt, env.bodyText = some txt → env.threadInfo = none → env.userPhoneNum = true →
      handle_text_message env =
        [.message "Sorry, we're having trouble accessing your chat history. Please try again later."])
    ∧ (∀ txt tid lmt, env.bodyText = some txt → env.threadInfo = some (tid, lmt) →
      needsNewThread tid (calculate_time_passed env.now lmt) env.retentionSeconds = true →
      env.createThread = none → env.userPhoneNum = true →
      handle_text_message env =
        [.message "An unexpected error occurred while creating a new chat session. Please try again later."]) := by
  have hafter : ∀ r, env.process = .ok r →
      cancelBeforeFinalSend (afterThreadResolution env) = true := by
    intro r hok
    unfold afterThreadResolution cancelIfRunning
    rw [hok, hrun]
    by_cases h1 : r = ""
    · simp [h1, cancelBeforeFinalSend, lastMessageIdx, List.findIdx?, isMessage]
    · by_cases h2 : env.formatted r = ""
      · simp [h1, h2, cancelBeforeFinalSend, lastMessageIdx, List.findIdx?, isMessage]
      · simp [h1, h2, cancelBeforeFinalSend, lastMessageIdx, List.findIdx?, isMessage]
  refine ⟨?_, ?_, ?_, ?_, ?_⟩
  · intro r txt tid lmt hok hbody hthread hphone hres
    unfold handle_text_message
    rw [hphone, hbody, hthread]
    rcases hres with hres | ⟨t2, ht2⟩
    · simp [hres]
      exact hafter r hok
    · rcases hneed : needsNewThread tid (calculate_time_passed env.now lmt)
          env.retentionSeconds
      · simp [hneed]
        exact hafter r hok
      · simp [hneed, ht2]
        exact hafter r hok
  · intro txt tid lmt hproc hbody hthread hphone hres
    unfold handle_text_message
    rw [hphone, hbody, hthread]
    have hthis : afterThreadResolution env =
        [.message "An error occurred while processing your message. Please try again later.",
         .cancelTyping] := by
      unfold afterThreadResolution cancelIfRunning
      rw [hproc, hrun]
      rfl
    rcases hres with hres | ⟨t2, ht2⟩
    · simp [hres, hthis]
    · rcases hneed : needsNewThread tid (calculate_time_passed env.now lmt)
          env.retentionSeconds
      · simp [hneed, hthis]
      · simp [hneed, ht2, hthis]
  · intro txt tid lmt hproc hbody hthread hphone hres
    unfold handle_text_message
    rw [hphone, hbody, hthread]
    have hthis : afterThreadResolution env =
        [.message "An unexpected error occurred while processing your message. Please try again later.",
         .cancelTyping] := by
      unfold afterThreadResolution cancelIfRunning
      rw [hproc, hrun]
      rfl
    rcases hres with hres | ⟨t2, ht2⟩
    · simp [hres, hthis]
    · rcases hneed : needsNewThread tid (calculate_time_passed env.now lmt)
          env.retentionSeconds
      · simp [hneed, hthis]
      · simp [hneed, ht2, hthis]
  · intro txt hbody hthread hphone
    unfold handle_text_message
    rw [hphone, hbody, hthread]
    rfl
  · intro txt tid lmt hbody hthread hneed hcreate hphone
    simp only [handle_text_message, hphone, hbody, hthread, hneed, hcreate, Bool.not_true,
      Bool.false_eq_true, if_false, if_true]

/-- Environment for the C6 witness: the backend thread lookup fails. -/
def c6WitnessEnv : HandleTextEnv :=
  ⟨true, some "hi", none, none, .ok "x", true, 0, 0, fun s => s⟩

theorem handle_text_message_cancel_order_witness :
    handle_text_message c6WitnessEnv =
      [.message "Sorry, we're having trouble accessing your chat history. Please try again later."] :=
  (handle_text_message_cancel_order c6WitnessEnv rfl).2.2.2.1 "hi" rfl rfl rfl

/-- C8 counterexample: with `hub.mode` present but empty (`""`) and a wrong
`hub.verify_token` present, the claim requires 403, but the endpoint's
truthiness test `if mode and verify_token` sends present-but-empty parameters
to the 400 branch. -/
theorem verification_webhook_empty_mode_cex :
    verification_webhook "tok" (some "") (some "wrong") (some "ch") = .badRequest
      ∧ verification_webhook "tok" (some "") (some "wrong") (some "ch") ≠ .forbidden :=
  ⟨rfl, by decide⟩

/-- C8 (amended): with a non-empty configured verify token, the GET
verification endpoint returns the `hub.challenge` parameter as the 200 body
exactly when `hub.mode == "subscribe"` and `hub.verify_token` equals the
configured token; it returns 403 when both parameters are present *and
non-empty* but the pair does not verify, and 400 when either parameter is
missing *or empty* (Python truthiness treats `""` like an absent parameter). -/
theorem verification_webhook_spec (cfgToken : String) (hcfg : cfgToken ≠ "")
    (mode verifyToken challenge : Option String) :
    (verification_webhook cfgToken mode verifyToken challenge = .ok challenge ↔
      mode = some "subscribe" ∧ verifyToken = some cfgToken)
    ∧ (verification_webhook cfgToken mode verifyToken challenge = .forbidden ↔
      truthyParam mode = true ∧ truthyParam verifyToken = true ∧
        ¬ (mode = some "subscribe" ∧ verifyToken = some cfgToken))
    ∧ (verification_webhook cfgToken mode verifyToken challenge = .badRequest ↔
      ¬ (truthyParam mode = true ∧ truthyParam verifyToken = true)) := by
  have hcfg2 : truthyParam (some cfgToken) = true := by
    unfold truthyParam
    rw [Bool.not_eq_true']
    rw [Bool.eq_false_iff]
    intro hx
    exact hcfg ((String.isEmpty_iff cfgToken).mp hx)
  have hBiff : (mode == some "subscribe" && verifyToken == some cfgToken) = true ↔
      (mode = some "subscribe" ∧ verifyToken = some cfgToken) := by
    simp [Bool.and_eq_true, beq_iff_eq]
  by_cases hm : truthyParam mode = true
  · by_cases hv : truthyParam verifyToken = true
    · by_cases hB : mode = some "subscribe" ∧ verifyToken = some cfgToken
      · have hBtrue := hBiff.mpr hB
        simp only [verification_webhook, hm, hv, Bool.and_self, if_true, hBtrue]
        simp [hB, hm, hv]
      · have hBfalse : (mode == some "subscribe" && verifyToken == some cfgToken) = false := by
          rw [Bool.eq_false_iff]
          intro hx
          exact hB (hBiff.mp hx)
        simp only [verification_webhook, hm, hv, Bool.and_self, if_true, hBfalse,
          Bool.false_eq_true, if_false]
        simp [hB, hm, hv]
    · have hnB : ¬ (mode = some "subscribe" ∧ verifyToken = some cfgToken) := by
        rintro ⟨h1, h2⟩
        rw [h2] at hv
        exact hv hcfg2
      have hA : (truthyParam mode && truthyParam verifyToken) = false := by
        rw [Bool.eq_false_iff]
        intro hx
        exact hv (Bool.and_eq_true .. |>.mp hx).2
      simp only [verification_webhook, hA, Bool.false_eq_true, if_false]
      simp [hnB, hm, hv]
  · have hnB : ¬ (mode = some "subscribe" ∧ verifyToken = some cfgToken) := by
      rintro ⟨h1, h2⟩
      rw [h1] at hm
      exact hm rfl
    have hA : (truthyParam mode && truthyParam verifyToken) = false := by
      rw [Bool.eq_false_iff]
      intro hx
      exact hm (Bool.and_eq_true .. |>.mp hx).1
    simp only [verification_webhook, hA, Bool.false_eq_true, if_false]
    simp [hnB, hm]

theorem verification_webhook_spec_witness :
    verification_webhook "t" (some "subscribe") (some "t") (some "c") = .ok (some "c") :=
  ((verification_webhook_spec "t" (by decide) (some "subscribe") (some "t")
      (some "c")).1).mpr ⟨rfl, rfl⟩

end AnsariWhatsapp
